import Mathlib

/-!
Verification of the Minesweeper AI knowledge-base engine (`minesweeper.py`).

The embedding models the `Sentence` class and the `MinesweeperAI` class.
Cells are integer pairs, cell sets are `Finset`s (Python `set` has value
equality and unspecified iteration order), sentence counts are integers
(Python ints may go negative), and the knowledge base is a list of
sentences.  Loops of the source that iterate over a Python set in
unspecified order and whose per-element updates commute are modelled by
their aggregate effect; lemmas `foldl_mark_mine_eq` and
`foldl_mark_safe_eq` prove that folding the per-cell operation over any
enumeration of the set yields exactly that aggregate.
-/

abbrev Cell := Int × Int

/-- `Sentence(cells, count)`: a set of board cells and a count of how many
of them are mines.  Python compares sentences by value equality of the
cell set and the count. -/
structure Sentence where
  cells : Finset Cell
  count : Int
deriving DecidableEq

/-- `Sentence.known_mines`: `self.cells if len(self.cells) == self.count
else None`. -/
def Sentence.known_mines (s : Sentence) : Option (Finset Cell) :=
  if (s.cells.card : Int) = s.count then some s.cells else none

/-- `Sentence.known_safes`: `self.cells if self.count == 0 else None`. -/
def Sentence.known_safes (s : Sentence) : Option (Finset Cell) :=
  if s.count = 0 then some s.cells else none

/-- Python truthiness of an optional set: `None` and the empty set are
falsy (`if sentence.known_mines():`). -/
def opt_truthy (o : Option (Finset Cell)) : Bool :=
  match o with
  | none => false
  | some s => if s = ∅ then false else true

/-- `Sentence.mark_mine`: rebuild the cell set without `cell`, and
decrement the count once if `cell` was a member. -/
def Sentence.mark_mine (s : Sentence) (c : Cell) : Sentence :=
  ⟨s.cells.erase c, if c ∈ s.cells then s.count - 1 else s.count⟩

/-- `Sentence.mark_safe`: rebuild the cell set without `cell`; the count
is unchanged. -/
def Sentence.mark_safe (s : Sentence) (c : Cell) : Sentence :=
  ⟨s.cells.erase c, s.count⟩

/-- The mutable state of `MinesweeperAI`. -/
structure AIState where
  height : Int
  width : Int
  moves_made : Finset Cell
  mines : Finset Cell
  safes : Finset Cell
  knowledge : List Sentence
deriving DecidableEq

/-- `MinesweeperAI.__init__(height, width)`. -/
def initialAI (h w : Int) : AIState :=
  ⟨h, w, ∅, ∅, ∅, []⟩

/-- `MinesweeperAI.mark_mine`: add the cell to `mines` and call
`Sentence.mark_mine` on every held sentence. -/
def AIState.mark_mine (st : AIState) (c : Cell) : AIState :=
  { st with mines := insert c st.mines,
            knowledge := st.knowledge.map (Sentence.mark_mine · c) }

/-- `MinesweeperAI.mark_safe`: add the cell to `safes` and call
`Sentence.mark_safe` on every held sentence. -/
def AIState.mark_safe (st : AIState) (c : Cell) : AIState :=
  { st with safes := insert c st.safes,
            knowledge := st.knowledge.map (Sentence.mark_safe · c) }

/-- Aggregate effect of `for cell in s: self.mark_mine(cell)`.  The
iteration order of a Python set is unspecified and the per-cell updates
commute; `foldl_mark_mine_eq` shows any enumeration order produces this
state. -/
def markMineAll (st : AIState) (s : Finset Cell) : AIState :=
  { st with mines := st.mines ∪ s,
            knowledge := st.knowledge.map fun t =>
              ⟨t.cells \ s, t.count - ((t.cells ∩ s).card : Int)⟩ }

/-- Aggregate effect of `for cell in s: self.mark_safe(cell)`; see
`foldl_mark_safe_eq`. -/
def markSafeAll (st : AIState) (s : Finset Cell) : AIState :=
  { st with safes := st.safes ∪ s,
            knowledge := st.knowledge.map fun t => ⟨t.cells \ s, t.count⟩ }

/-- The bounds check `0 <= x + i < self.height and 0 <= y + j < self.width`. -/
abbrev inb (st : AIState) (p : Cell) : Prop :=
  0 ≤ p.1 ∧ p.1 < st.height ∧ 0 ≤ p.2 ∧ p.2 < st.width

/-- The loop body of `MinesweeperAI.get_neighbors` for one candidate
point `p = (x + i, y + j)`: if `p` is within bounds, add it to the
accumulated neighbor set when it is neither safe nor a known mine, and
decrement the running count when it is a known mine. -/
def gn_step (st : AIState) (acc : Finset Cell × Int) (p : Cell) : Finset Cell × Int :=
  if inb st p then
    let acc1 := if p ∉ st.safes ∧ p ∉ st.mines then (insert p acc.1, acc.2) else acc
    if p ∈ st.mines then (acc1.1, acc1.2 - 1) else acc1
  else acc

/-- The offsets `(i, j)` visited by the double loop
`for i in range(-1, 2): for j in range(-1, 2)`, in source order. -/
def offsets : List (Int × Int) :=
  [(-1, -1), (-1, 0), (-1, 1), (0, -1), (0, 0), (0, 1), (1, -1), (1, 0), (1, 1)]

/-- `MinesweeperAI.get_neighbors(cell, count)`: scan the 3 by 3 block
around `cell`, skip the cell itself, collect in-bounds neighbors not yet
known safe or mine, and subtract known mines from the count. -/
def get_neighbors (st : AIState) (cell : Cell) (count : Int) : Finset Cell × Int :=
  offsets.foldl
    (fun acc o =>
      if o = ((0 : Int), (0 : Int)) then acc
      else gn_step st acc (cell.1 + o.1, cell.2 + o.2))
    (∅, count)

/-- Steps 1 and 2 of `add_knowledge`: `self.moves_made.add(cell)` then
`self.mark_safe(cell)`. -/
def ak_after_marks (st : AIState) (cell : Cell) : AIState :=
  AIState.mark_safe { st with moves_made := insert cell st.moves_made } cell

/-- One iteration of the inference loop of `add_knowledge`, processing
the sentence at index `i` of the current knowledge list.  `newcells` and
`count` are the loop-invariant local variables of the Python code;
`nsIdx` is the position of `newsentence` in the list (it was appended
last, and the list length is fixed during the loop), so the current
value at `nsIdx` is the current value of the `newsentence` object that
`sentence == newsentence` compares against.  The superset test re-reads
the sentence because the subset branch may have mutated it via
`mark_mine`/`mark_safe` propagation. -/
def pairwise_step (newcells : Finset Cell) (count : Int) (nsIdx : Nat)
    (acc : AIState × List Sentence) (i : Nat) : AIState × List Sentence :=
  let st := acc.1
  let s := st.knowledge.getD i ⟨∅, 0⟩
  let ns := st.knowledge.getD nsIdx ⟨∅, 0⟩
  if s = ns then acc
  else
    let acc1 :=
      if s.cells ⊆ newcells then
        let setdiff := newcells \ s.cells
        let cntdiff := count - s.count
        if (setdiff.card : Int) = cntdiff then (markMineAll st setdiff, acc.2)
        else if cntdiff = 0 then (markSafeAll st setdiff, acc.2)
        else (st, acc.2 ++ [⟨setdiff, cntdiff⟩])
      else acc
    let st1 := acc1.1
    let s1 := st1.knowledge.getD i ⟨∅, 0⟩
    if newcells ⊆ s1.cells then
      let setdiff := s1.cells \ newcells
      let cntdiff := s1.count - count
      if (setdiff.card : Int) = cntdiff then (markMineAll st1 setdiff, acc1.2)
      else if cntdiff = 0 then (markSafeAll st1 setdiff, acc1.2)
      else (st1, acc1.2 ++ [⟨setdiff, cntdiff⟩])
    else acc1

/-- The full inference loop (`for sentence in self.knowledge:` of step
"Draw new inferences"): the list length is fixed during the loop (staged
inferences are only appended afterwards), so it is an iteration over the
indices of the current list. -/
def pairwise_phase (newcells : Finset Cell) (count : Int) (st : AIState) :
    AIState × List Sentence :=
  let n := st.knowledge.length
  (List.range n).foldl (pairwise_step newcells count (n - 1)) (st, [])

/-- The duplicate-removal pass of `add_knowledge`: keep the first
occurrence of each value. -/
def unique_list (l : List Sentence) : List Sentence :=
  l.foldl (fun acc s => if s ∈ acc then acc else acc ++ [s]) []

/-- One iteration of the final cleanup loop at index `i`.  If the
sentence's `known_mines()` is truthy, every one of its cells is marked a
mine (the iteration snapshot is the cell set returned by
`known_mines()`); then `known_safes()` is re-tested on the now-mutated
sentence.  The `continue` statements of the source sit inside the inner
`for` loops, so `final.append(sentence)` runs for every sentence: the
list contents are unchanged beyond the mutations done by the marking. -/
def cleanup_step (st : AIState) (i : Nat) : AIState :=
  let s := st.knowledge.getD i ⟨∅, 0⟩
  let st1 := if opt_truthy s.known_mines then markMineAll st s.cells else st
  let s1 := st1.knowledge.getD i ⟨∅, 0⟩
  if opt_truthy s1.known_safes then markSafeAll st1 s1.cells else st1

/-- The final cleanup loop of `add_knowledge`.  Because every sentence is
appended to `final`, the reassignment `self.knowledge = final` leaves the
list's length and order unchanged. -/
def final_cleanup (st : AIState) : AIState :=
  (List.range st.knowledge.length).foldl cleanup_step st

/-- `MinesweeperAI.add_knowledge` up to (and including) the immediate
resolution of the new sentence: mark the move, mark the cell safe,
append the sentence built from `get_neighbors`, then mark all its cells
safe when the adjusted count is 0 and mark them all mines when the
adjusted count equals their number. -/
def ak_staged (st : AIState) (cell : Cell) (count : Int) : AIState :=
  let st2 := ak_after_marks st cell
  let nc := get_neighbors st2 cell count
  let st3 := { st2 with knowledge := st2.knowledge ++ [⟨nc.1, nc.2⟩] }
  let st4 := if nc.2 = 0 then markSafeAll st3 nc.1 else st3
  if (nc.1.card : Int) = nc.2 then markMineAll st4 nc.1 else st4

/-- `MinesweeperAI.add_knowledge` up to (and including) the duplicate
removal, i.e. everything before the final cleanup loop. -/
def ak_before_cleanup (st : AIState) (cell : Cell) (count : Int) : AIState :=
  let nc := get_neighbors (ak_after_marks st cell) cell count
  let pr := pairwise_phase nc.1 nc.2 (ak_staged st cell count)
  let st6 := { pr.1 with knowledge := pr.1.knowledge ++ pr.2 }
  { st6 with knowledge := unique_list st6.knowledge }

/-- `MinesweeperAI.add_knowledge(cell, count)`. -/
def add_knowledge (st : AIState) (cell : Cell) (count : Int) : AIState :=
  final_cleanup (ak_before_cleanup st cell count)

/-- A deterministic choice from a finite set of cells, modelling
`set.pop()` (which returns an arbitrary element) as the lexicographically
least cell. -/
def pickCell (s : Finset Cell) : Option Cell :=
  if h1 : s.Nonempty then
    if h2 : ((s.filter fun c => c.1 = (s.image Prod.fst).min' (h1.image Prod.fst)).image
        Prod.snd).Nonempty then
      some ((s.image Prod.fst).min' (h1.image Prod.fst),
        ((s.filter fun c => c.1 = (s.image Prod.fst).min' (h1.image Prod.fst)).image
          Prod.snd).min' h2)
    else none
  else none

/-- `MinesweeperAI.make_safe_move`: `safe_cells = self.safes -
self.moves_made; return safe_cells.pop() if len(safe_cells) > 0 else
None`.  The method assigns to no attribute, so the state is returned
unchanged. -/
def make_safe_move (st : AIState) : Option Cell × AIState :=
  let safe_cells := st.safes \ st.moves_made
  ((if 0 < safe_cells.card then pickCell safe_cells else none), st)

/-- A single application of `record_global_mine` or `record_global_safe`,
used to state what a sequence of these two public operations does. -/
inductive MarkOp where
  | mine : Cell → MarkOp
  | safe : Cell → MarkOp

/-- Apply one mark operation to the knowledge base. -/
def applyMark (st : AIState) (o : MarkOp) : AIState :=
  match o with
  | .mine c => st.mark_mine c
  | .safe c => st.mark_safe c

/-- Apply a sequence of mark operations in order. -/
def applyMarks (st : AIState) (l : List MarkOp) : AIState :=
  l.foldl applyMark st

/-- The cells recorded as mines by a sequence of mark operations. -/
def minesOf (l : List MarkOp) : Finset Cell :=
  (l.filterMap fun o => match o with | .mine c => some c | .safe _ => none).toFinset

/-- The cells recorded as safe by a sequence of mark operations. -/
def safesOf (l : List MarkOp) : Finset Cell :=
  (l.filterMap fun o => match o with | .mine _ => none | .safe c => some c).toFinset

/-- The eight candidate neighbor points around `cell`, in the order the
double loop of `get_neighbors` visits them (the cell itself skipped). -/
def nbr_list (cell : Cell) : List Cell :=
  [(cell.1 + -1, cell.2 + -1), (cell.1 + -1, cell.2 + 0), (cell.1 + -1, cell.2 + 1),
   (cell.1 + 0, cell.2 + -1), (cell.1 + 0, cell.2 + 1),
   (cell.1 + 1, cell.2 + -1), (cell.1 + 1, cell.2 + 0), (cell.1 + 1, cell.2 + 1)]

/-- Written from the spec's words, for comparison with `get_neighbors`:
the up-to-8 cells adjacent to `cell` (within one row and one column,
excluding the cell itself), bounded by the board edges. -/
def spec_neighbors (st : AIState) (cell : Cell) : Finset Cell :=
  (Finset.Icc (cell.1 - 1) (cell.1 + 1) ×ˢ Finset.Icc (cell.2 - 1) (cell.2 + 1)).filter
    fun p => p ≠ cell ∧ 0 ≤ p.1 ∧ p.1 < st.height ∧ 0 ≤ p.2 ∧ p.2 < st.width

/-- Boolean form of the condition under which `gn_step` keeps a point. -/
def gn_keepb (st : AIState) (p : Cell) : Bool :=
  decide (inb st p ∧ p ∉ st.safes ∧ p ∉ st.mines)

/-- Boolean form of the condition under which `gn_step` decrements the count. -/
def gn_mineb (st : AIState) (p : Cell) : Bool :=
  decide (inb st p ∧ p ∈ st.mines)

lemma erase_sdiff_eq (s T : Finset Cell) (c : Cell) :
    (s.erase c) \ T = s \ insert c T := by
  ext x
  simp only [Finset.mem_sdiff, Finset.mem_erase, Finset.mem_insert]
  tauto

lemma card_inter_insert (s T : Finset Cell) (c : Cell) :
    (s ∩ insert c T).card =
      (if c ∈ s then 1 else 0) + ((s.erase c) ∩ T).card := by
  by_cases hc : c ∈ s
  · have h1 : s ∩ insert c T = insert c ((s.erase c) ∩ T) := by
      ext x
      simp only [Finset.mem_inter, Finset.mem_insert, Finset.mem_erase]
      constructor
      · rintro ⟨hx, hx2 | hx2⟩
        · exact Or.inl hx2
        · by_cases hxc : x = c
          · exact Or.inl hxc
          · exact Or.inr ⟨⟨hxc, hx⟩, hx2⟩
      · rintro (rfl | ⟨⟨hx1, hx2⟩, hx3⟩)
        · exact ⟨hc, Or.inl rfl⟩
        · exact ⟨hx2, Or.inr hx3⟩
    rw [h1, Finset.card_insert_of_not_mem (by simp), if_pos hc]
    omega
  · have h1 : s ∩ insert c T = s ∩ T := by
      ext x
      simp only [Finset.mem_inter, Finset.mem_insert]
      constructor
      · rintro ⟨hx, rfl | hx2⟩
        · exact absurd hx hc
        · exact ⟨hx, hx2⟩
      · rintro ⟨hx, hx2⟩
        exact ⟨hx, Or.inr hx2⟩
    rw [h1, if_neg hc, Finset.erase_eq_of_not_mem hc]
    omega

/-- Folding `MinesweeperAI.mark_mine` over any enumeration of a set of
cells produces exactly `markMineAll` of that set: the aggregate
modelling of the source's per-cell loops is order-independent. -/
lemma foldl_mark_mine_eq (l : List Cell) :
    ∀ st : AIState, l.foldl AIState.mark_mine st = markMineAll st l.toFinset := by
  induction l with
  | nil =>
      intro st
      cases st with
      | mk h w mm mn sf kn =>
          simp only [List.foldl_nil, markMineAll, List.toFinset_nil, Finset.union_empty,
            Finset.sdiff_empty, Finset.inter_empty, Finset.card_empty, Nat.cast_zero,
            sub_zero, AIState.mk.injEq, true_and]
          exact (List.map_id kn).symm ▸ rfl
  | cons c l ih =>
      intro st
      simp only [List.foldl_cons, List.toFinset_cons]
      rw [ih]
      cases st with
      | mk h w mm mn sf kn =>
          simp only [markMineAll, AIState.mark_mine, List.map_map, AIState.mk.injEq,
            true_and]
          constructor
          · rw [Finset.insert_union, Finset.union_insert]
          · refine List.map_congr_left ?_
            intro t _
            simp only [Function.comp_apply, Sentence.mark_mine, Sentence.mk.injEq]
            constructor
            · exact erase_sdiff_eq t.cells l.toFinset c
            · rw [card_inter_insert t.cells l.toFinset c]
              by_cases hc : c ∈ t.cells <;> simp only [hc, if_pos, if_neg, if_true,
                if_false] <;> push_cast <;> omega

/-- Folding `MinesweeperAI.mark_safe` over any enumeration of a set of
cells produces exactly `markSafeAll` of that set. -/
lemma foldl_mark_safe_eq (l : List Cell) :
    ∀ st : AIState, l.foldl AIState.mark_safe st = markSafeAll st l.toFinset := by
  induction l with
  | nil =>
      intro st
      cases st with
      | mk h w mm mn sf kn =>
          simp only [List.foldl_nil, markSafeAll, List.toFinset_nil, Finset.union_empty,
            Finset.sdiff_empty, AIState.mk.injEq, true_and]
          exact (List.map_id kn).symm ▸ rfl
  | cons c l ih =>
      intro st
      simp only [List.foldl_cons, List.toFinset_cons]
      rw [ih]
      cases st with
      | mk h w mm mn sf kn =>
          simp only [markSafeAll, AIState.mark_safe, List.map_map, AIState.mk.injEq,
            true_and]
          constructor
          · rw [Finset.insert_union, Finset.union_insert]
          · refine List.map_congr_left ?_
            intro t _
            simp only [Function.comp_apply, Sentence.mark_safe, Sentence.mk.injEq]
            exact ⟨erase_sdiff_eq t.cells l.toFinset c, trivial⟩

lemma sentence_mark_mine_idem (s : Sentence) (c : Cell) :
    (s.mark_mine c).mark_mine c = s.mark_mine c := by
  unfold Sentence.mark_mine
  simp

lemma sentence_mark_safe_idem (s : Sentence) (c : Cell) :
    (s.mark_safe c).mark_safe c = s.mark_safe c := by
  unfold Sentence.mark_safe
  simp

lemma unique_list_aux_nodup (l : List Sentence) :
    ∀ acc : List Sentence, acc.Nodup →
      (l.foldl (fun acc s => if s ∈ acc then acc else acc ++ [s]) acc).Nodup := by
  induction l with
  | nil => intro acc h; exact h
  | cons a l ih =>
      intro acc h
      simp only [List.foldl_cons]
      by_cases ha : a ∈ acc
      · simp only [ha, if_true]
        exact ih acc h
      · simp only [ha, if_false]
        refine ih (acc ++ [a]) ?_
        exact List.nodup_append.mpr ⟨h, List.nodup_singleton a, by simp [ha]⟩

lemma unique_list_nodup (l : List Sentence) : (unique_list l).Nodup :=
  unique_list_aux_nodup l [] List.nodup_nil

lemma unique_list_aux_mem (x : Sentence) (l : List Sentence) :
    ∀ acc : List Sentence, x ∈ acc ∨ x ∈ l →
      x ∈ l.foldl (fun acc s => if s ∈ acc then acc else acc ++ [s]) acc := by
  induction l with
  | nil => intro acc h; simpa using h.resolve_right (by simp)
  | cons a l ih =>
      intro acc h
      simp only [List.foldl_cons]
      by_cases ha : a ∈ acc
      · simp only [ha, if_true]
        refine ih acc ?_
        rcases h with h | h
        · exact Or.inl h
        · rcases List.mem_cons.mp h with rfl | h
          · exact Or.inl ha
          · exact Or.inr h
      · simp only [ha, if_false]
        refine ih (acc ++ [a]) ?_
        rcases h with h | h
        · exact Or.inl (by simp [h])
        · rcases List.mem_cons.mp h with rfl | h
          · exact Or.inl (by simp)
          · exact Or.inr h

lemma mem_unique_list (x : Sentence) (l : List Sentence) (h : x ∈ l) :
    x ∈ unique_list l :=
  unique_list_aux_mem x l [] (Or.inr h)

/-- Claim C7: `known_mines()` returns exactly the cell set iff the count
equals the number of cells and returns none otherwise; `known_safes()`
returns exactly the cell set iff the count is zero and returns none
otherwise. -/
theorem c7_known_mines_known_safes (s : Sentence) :
    (s.known_mines = some s.cells ↔ s.count = (s.cells.card : Int)) ∧
    (s.known_mines = none ↔ s.count ≠ (s.cells.card : Int)) ∧
    (s.known_safes = some s.cells ↔ s.count = 0) ∧
    (s.known_safes = none ↔ s.count ≠ 0) := by
  unfold Sentence.known_mines Sentence.known_safes
  refine ⟨?_, ?_, ?_, ?_⟩ <;> split_ifs <;> simp_all <;> omega

/-- Claim C8: calling `MinesweeperAI.mark_mine` (the spec's
`record_global_mine`) twice with the same cell leaves the state exactly
as after the first call, and likewise for `MinesweeperAI.mark_safe`. -/
theorem c8_mark_idempotent (st : AIState) (c : Cell) :
    (st.mark_mine c).mark_mine c = st.mark_mine c ∧
    (st.mark_safe c).mark_safe c = st.mark_safe c := by
  constructor
  · unfold AIState.mark_mine
    simp [List.map_map, Function.comp, sentence_mark_mine_idem]
  · unfold AIState.mark_safe
    simp [List.map_map, Function.comp, sentence_mark_safe_idem]

/-- Claim C1 (evaluation at the failing input): on a 3 by 3 board with a
mine at (2,1), after `add_knowledge((2,0), 1)` the call
`add_knowledge((0,0), 0)` reaches its final cleanup loop with the
knowledge list `[{(2,1)}=1, {}=0]`, whose first constraint has a truthy
`known_mines()`; the sweep extracts the mine (2,1), yet both constraints
are still present (as `{}=0`) when the call returns — nothing is
removed, contradicting the claim that resolved constraints are dropped. -/
theorem c1_resolved_constraint_retained :
    (ak_before_cleanup (add_knowledge (initialAI 3 3) ((2 : Int), (0 : Int)) 1)
        ((0 : Int), (0 : Int)) 0).knowledge
      = [⟨{((2 : Int), (1 : Int))}, 1⟩, ⟨∅, 0⟩] ∧
    opt_truthy (Sentence.known_mines ⟨{((2 : Int), (1 : Int))}, 1⟩) = true ∧
    (add_knowledge (add_knowledge (initialAI 3 3) ((2 : Int), (0 : Int)) 1)
        ((0 : Int), (0 : Int)) 0).knowledge = [⟨∅, 0⟩, ⟨∅, 0⟩] ∧
    (add_knowledge (add_knowledge (initialAI 3 3) ((2 : Int), (0 : Int)) 1)
        ((0 : Int), (0 : Int)) 0).mines = {((2 : Int), (1 : Int))} := by
  decide

/-- Claim C2 (counterexample): on a 3 by 3 board with a mine at (0,1),
after `add_knowledge((0,2), 1)` then `add_knowledge((2,2), 0)` the
knowledge list is `[{}=0, {}=0]` — two distinct entries that are
value-equal, because the final cleanup loop mutates constraints after
the duplicate-removal pass. -/
theorem c2_counterexample :
    ¬ (add_knowledge (add_knowledge (initialAI 3 3) ((0 : Int), (2 : Int)) 1)
        ((2 : Int), (2 : Int)) 0).knowledge.Nodup := by
  decide

/-- Claim C2 (amended): the knowledge list is duplicate-free at the point
where `add_knowledge` finishes its duplicate-removal pass (just before
the final cleanup loop), for every state and every input. -/
theorem c2_amended_nodup_before_cleanup (st : AIState) (cell : Cell) (count : Int) :
    (ak_before_cleanup st cell count).knowledge.Nodup := by
  unfold ak_before_cleanup
  exact unique_list_nodup _

/-- Claim C4 (counterexample): a single `add_knowledge((0,0), 5)` on a
fresh 2 by 2 board leaves the constraint
`{(0,1),(1,0),(1,1)} = 5` in the knowledge base, violating
`count ≤ |cells|`. -/
theorem c4_counterexample :
    ¬ (∀ s ∈ (add_knowledge (initialAI 2 2) ((0 : Int), (0 : Int)) 5).knowledge,
        0 ≤ s.count ∧ s.count ≤ (s.cells.card : Int)) := by
  decide

lemma unique_list_singleton (x : Sentence) : unique_list [x] = [x] := by
  simp [unique_list]

lemma pairwise_phase_single (newcells : Finset Cell) (cnt : Int) (st : AIState)
    (h : st.knowledge.length = 1) : pairwise_phase newcells cnt st = (st, []) := by
  unfold pairwise_phase
  simp only [h]
  have hr : List.range 1 = [0] := rfl
  rw [hr]
  simp only [List.foldl_cons, List.foldl_nil]
  simp only [pairwise_step]
  simp

lemma final_cleanup_single (st : AIState) (x : Sentence) (h : st.knowledge = [x])
    (hm : opt_truthy x.known_mines = false) (hs : opt_truthy x.known_safes = false) :
    final_cleanup st = st := by
  unfold final_cleanup
  rw [h]
  simp only [List.length_cons, List.length_nil]
  have hr : List.range 1 = [0] := rfl
  rw [hr]
  simp only [List.foldl_cons, List.foldl_nil]
  unfold cleanup_step
  simp [h, hm, hs]

lemma opt_truthy_empty_zero_mines :
    opt_truthy (Sentence.known_mines ⟨∅, 0⟩) = false := by
  decide

lemma opt_truthy_empty_zero_safes :
    opt_truthy (Sentence.known_safes ⟨∅, 0⟩) = false := by
  decide

/-- On a state holding no constraints, `ak_staged` leaves the single new
constraint as the only sentence: emptied to `{}=0` when the adjusted
count is 0 or equals the neighbor-set size, untouched otherwise. -/
lemma ak_staged_empty_kb (st : AIState) (cell : Cell) (count : Int)
    (N : Finset Cell) (c : Int)
    (hkn : st.knowledge = [])
    (hgn : get_neighbors (ak_after_marks st cell) cell count = (N, c)) :
    (ak_staged st cell count).knowledge =
      [if c = 0 ∨ (N.card : Int) = c then (⟨∅, 0⟩ : Sentence) else ⟨N, c⟩] := by
  have h2 : (ak_after_marks st cell).knowledge = [] := by
    simp [ak_after_marks, AIState.mark_safe, hkn]
  simp only [ak_staged, hgn]
  by_cases hc0 : c = 0
  · subst hc0
    by_cases hcN : (N.card : Int) = 0
    · simp [hcN, markMineAll, markSafeAll, h2]
    · simp [hcN, markSafeAll, h2]
  · by_cases hcN : (N.card : Int) = c
    · simp [hc0, hcN, markMineAll, h2]
    · simp [hc0, hcN, h2]

/-- `add_knowledge` on a state with an empty knowledge base: the single
new constraint is the only sentence; it is emptied when the adjusted
count is 0 or equals the neighbor-set size, and untouched otherwise. -/
lemma ak_empty_kb (st : AIState) (cell : Cell) (count : Int) (N : Finset Cell) (c : Int)
    (hkn : st.knowledge = [])
    (hgn : get_neighbors (ak_after_marks st cell) cell count = (N, c)) :
    (add_knowledge st cell count).knowledge =
      if c = 0 ∨ (N.card : Int) = c then [⟨∅, 0⟩] else [⟨N, c⟩] := by
  have hstk := ak_staged_empty_kb st cell count N c hkn hgn
  have hxm : opt_truthy (Sentence.known_mines
      (if c = 0 ∨ (N.card : Int) = c then (⟨∅, 0⟩ : Sentence) else ⟨N, c⟩)) = false := by
    split_ifs with h
    · exact opt_truthy_empty_zero_mines
    · push_neg at h
      simp [Sentence.known_mines, opt_truthy, h.2]
  have hxs : opt_truthy (Sentence.known_safes
      (if c = 0 ∨ (N.card : Int) = c then (⟨∅, 0⟩ : Sentence) else ⟨N, c⟩)) = false := by
    split_ifs with h
    · exact opt_truthy_empty_zero_safes
    · push_neg at h
      simp [Sentence.known_safes, opt_truthy, h.1]
  simp only [add_knowledge, ak_before_cleanup, hgn]
  rw [pairwise_phase_single _ _ _ (by rw [hstk]; rfl)]
  rw [final_cleanup_single _ _ (by simp [hstk, unique_list_singleton]) hxm hxs]
  simp [hstk, unique_list_singleton]
  split_ifs <;> rfl

/-- Claim C4 (amended): a first `add_knowledge` call on a state holding
no constraints preserves `0 ≤ count ≤ |cells|` for every held
constraint, provided the adjusted count is within `[0, |undetermined
neighbors|]`; the invariant is not unconditional (see the
counterexample). -/
theorem c4_amended_first_call_invariant (st : AIState) (cell : Cell) (count : Int)
    (N : Finset Cell) (c : Int)
    (hkn : st.knowledge = [])
    (hgn : get_neighbors (ak_after_marks st cell) cell count = (N, c))
    (h0 : 0 ≤ c) (h1 : c ≤ (N.card : Int)) :
    ∀ s ∈ (add_knowledge st cell count).knowledge,
      0 ≤ s.count ∧ s.count ≤ (s.cells.card : Int) := by
  rw [ak_empty_kb st cell count N c hkn hgn]
  split_ifs with h
  · intro s hs
    rw [List.mem_singleton] at hs
    subst hs
    simp
  · intro s hs
    rw [List.mem_singleton] at hs
    subst hs
    exact ⟨h0, h1⟩

/-- Claim C4 (amended, witness): the first call `add_knowledge((0,0), 1)`
on a fresh 2 by 2 board has undetermined neighbor set of size 3 and
adjusted count 1, and every constraint after the call satisfies the
invariant. -/
theorem c4_amended_first_call_invariant_witness :
    0 ≤ (Sentence.mk {((0 : Int), (1 : Int)), ((1 : Int), (0 : Int)),
        ((1 : Int), (1 : Int))} 1).count ∧
    (Sentence.mk {((0 : Int), (1 : Int)), ((1 : Int), (0 : Int)),
        ((1 : Int), (1 : Int))} 1).count ≤
      ((Sentence.mk {((0 : Int), (1 : Int)), ((1 : Int), (0 : Int)),
        ((1 : Int), (1 : Int))} 1).cells.card : Int) :=
  c4_amended_first_call_invariant (initialAI 2 2) ((0 : Int), (0 : Int)) 1
    {((0 : Int), (1 : Int)), ((1 : Int), (0 : Int)), ((1 : Int), (1 : Int))} 1
    (by decide) (by decide) (by decide) (by decide)
    (Sentence.mk {((0 : Int), (1 : Int)), ((1 : Int), (0 : Int)),
      ((1 : Int), (1 : Int))} 1)
    (by
      rw [ak_empty_kb (initialAI 2 2) ((0 : Int), (0 : Int)) 1
        {((0 : Int), (1 : Int)), ((1 : Int), (0 : Int)), ((1 : Int), (1 : Int))} 1
        rfl (by decide), if_neg (by decide)]
      exact List.mem_singleton_self _)

/-- Claim C5 (counterexample): `record_global_safe((0,0))` followed by
`record_global_mine((0,0))` — two public operations — leaves (0,0) in
both `mines` and `safes`: the sets are not disjoint. -/
theorem c5_counterexample :
    ¬ (((AIState.mark_safe (initialAI 2 2) ((0 : Int), (0 : Int))).mark_mine
          ((0 : Int), (0 : Int))).mines ∩
       ((AIState.mark_safe (initialAI 2 2) ((0 : Int), (0 : Int))).mark_mine
          ((0 : Int), (0 : Int))).safes = ∅) := by
  decide

lemma applyMarks_mines (l : List MarkOp) :
    ∀ st : AIState, (applyMarks st l).mines = st.mines ∪ minesOf l := by
  induction l with
  | nil => intro st; simp [applyMarks, minesOf]
  | cons o l ih =>
      intro st
      cases o with
      | mine c =>
          simp only [applyMarks, List.foldl_cons] at ih ⊢
          rw [ih]
          simp [applyMark, AIState.mark_mine, minesOf, Finset.insert_union,
            Finset.union_insert]
      | safe c =>
          simp only [applyMarks, List.foldl_cons] at ih ⊢
          rw [ih]
          simp [applyMark, AIState.mark_safe, minesOf]

lemma applyMarks_safes (l : List MarkOp) :
    ∀ st : AIState, (applyMarks st l).safes = st.safes ∪ safesOf l := by
  induction l with
  | nil => intro st; simp [applyMarks, safesOf]
  | cons o l ih =>
      intro st
      cases o with
      | mine c =>
          simp only [applyMarks, List.foldl_cons] at ih ⊢
          rw [ih]
          simp [applyMark, AIState.mark_mine, safesOf]
      | safe c =>
          simp only [applyMarks, List.foldl_cons] at ih ⊢
          rw [ih]
          simp [applyMark, AIState.mark_safe, safesOf, Finset.insert_union,
            Finset.union_insert]

/-- Claim C5 (amended): `record_global_mine` and `record_global_safe`
record their cell unconditionally, without consulting the other set.
For any sequence of these two public operations from the initial state,
`mines` is exactly the set of mine-recorded cells and `safes` the set of
safe-recorded cells, so `mines ∩ safes = ∅` holds precisely when no cell
was recorded both ways — the invariant is not maintained
unconditionally. -/
theorem c5_amended_marks_disjoint_iff (h w : Int) (l : List MarkOp) :
    (applyMarks (initialAI h w) l).mines = minesOf l ∧
    (applyMarks (initialAI h w) l).safes = safesOf l ∧
    ((applyMarks (initialAI h w) l).mines ∩ (applyMarks (initialAI h w) l).safes = ∅ ↔
      minesOf l ∩ safesOf l = ∅) := by
  have hm : (applyMarks (initialAI h w) l).mines = minesOf l := by
    rw [applyMarks_mines]
    simp [initialAI]
  have hs : (applyMarks (initialAI h w) l).safes = safesOf l := by
    rw [applyMarks_safes]
    simp [initialAI]
  exact ⟨hm, hs, by rw [hm, hs]⟩

lemma gn_keepb_iff (st : AIState) (p : Cell) :
    gn_keepb st p = true ↔ (inb st p ∧ p ∉ st.safes ∧ p ∉ st.mines) := by
  simp [gn_keepb]

lemma gn_mineb_iff (st : AIState) (p : Cell) :
    gn_mineb st p = true ↔ (inb st p ∧ p ∈ st.mines) := by
  simp [gn_mineb]

lemma get_neighbors_eq_foldl (st : AIState) (cell : Cell) (count : Int) :
    get_neighbors st cell count = (nbr_list cell).foldl (gn_step st) (∅, count) := by
  simp only [get_neighbors, offsets, nbr_list, List.foldl_cons, List.foldl_nil]
  norm_num [Prod.ext_iff]

lemma gn_step_out {st : AIState} {p : Cell} (h : ¬ inb st p)
    (acc : Finset Cell × Int) : gn_step st acc p = acc := by
  unfold gn_step
  simp [h]

lemma gn_step_keep {st : AIState} {p : Cell} (hb : inb st p)
    (hs : p ∉ st.safes) (hm : p ∉ st.mines) (s0 : Finset Cell) (c0 : Int) :
    gn_step st (s0, c0) p = (insert p s0, c0) := by
  unfold gn_step
  simp [hb, hs, hm]

lemma gn_step_mine {st : AIState} {p : Cell} (hb : inb st p)
    (hm : p ∈ st.mines) (s0 : Finset Cell) (c0 : Int) :
    gn_step st (s0, c0) p = (s0, c0 - 1) := by
  unfold gn_step
  simp [hb, hm]

lemma gn_step_safe {st : AIState} {p : Cell} (hs : p ∈ st.safes)
    (hm : p ∉ st.mines) (s0 : Finset Cell) (c0 : Int) :
    gn_step st (s0, c0) p = (s0, c0) := by
  unfold gn_step
  by_cases hb : inb st p <;> simp [hb, hs, hm]

lemma gn_foldl_closed (st : AIState) (l : List Cell) :
    ∀ (s0 : Finset Cell) (c0 : Int),
      l.foldl (gn_step st) (s0, c0) =
        (s0 ∪ (l.filter (gn_keepb st)).toFinset,
         c0 - ((l.filter (gn_mineb st)).length : Int)) := by
  induction l with
  | nil => intro s0 c0; simp
  | cons p l ih =>
      intro s0 c0
      simp only [List.foldl_cons, List.filter_cons]
      by_cases hb : inb st p
      · by_cases hm : p ∈ st.mines
        · rw [gn_step_mine hb hm, ih,
            if_neg (by rw [gn_keepb_iff]; tauto),
            if_pos ((gn_mineb_iff st p).mpr ⟨hb, hm⟩)]
          refine Prod.ext rfl ?_
          simp only [List.length_cons]
          push_cast
          ring
        · by_cases hs : p ∈ st.safes
          · rw [gn_step_safe hs hm, ih,
              if_neg (by rw [gn_keepb_iff]; tauto),
              if_neg (by rw [gn_mineb_iff]; tauto)]
          · rw [gn_step_keep hb hs hm, ih,
              if_pos ((gn_keepb_iff st p).mpr ⟨hb, hs, hm⟩),
              if_neg (by rw [gn_mineb_iff]; tauto)]
            refine Prod.ext ?_ rfl
            rw [List.toFinset_cons, Finset.insert_union, Finset.union_insert]
      · rw [gn_step_out hb, ih,
          if_neg (by rw [gn_keepb_iff]; tauto),
          if_neg (by rw [gn_mineb_iff]; tauto)]

lemma nbr_list_nodup (cell : Cell) : (nbr_list cell).Nodup := by
  rcases cell with ⟨x, y⟩
  simp [nbr_list, Prod.ext_iff]

lemma mem_nbr_list (cell p : Cell) :
    p ∈ nbr_list cell ↔
      p ≠ cell ∧ cell.1 - 1 ≤ p.1 ∧ p.1 ≤ cell.1 + 1 ∧
        cell.2 - 1 ≤ p.2 ∧ p.2 ≤ cell.2 + 1 := by
  rcases cell with ⟨x, y⟩
  rcases p with ⟨a, b⟩
  simp [nbr_list, Prod.ext_iff]
  omega

lemma mem_spec_neighbors (st : AIState) (cell p : Cell) :
    p ∈ spec_neighbors st cell ↔ p ∈ nbr_list cell ∧ inb st p := by
  simp only [spec_neighbors, Finset.mem_filter, Finset.mem_product, Finset.mem_Icc,
    mem_nbr_list, inb]
  tauto

/-- Claim C6: the constraint that `add_knowledge` builds (from
`get_neighbors`) has as its cell set exactly the in-bounds neighbors of
the cell that are in neither `safes` nor `mines`, and as its count the
given count minus the number of in-bounds neighbors that are in
`mines`. -/
theorem c6_get_neighbors_characterization (st : AIState) (cell : Cell) (count : Int) :
    (get_neighbors st cell count).1 =
      (spec_neighbors st cell).filter (fun p => p ∉ st.safes ∧ p ∉ st.mines) ∧
    (get_neighbors st cell count).2 =
      count - (((spec_neighbors st cell).filter (fun p => p ∈ st.mines)).card : Int) := by
  rw [get_neighbors_eq_foldl, gn_foldl_closed]
  constructor
  · ext p
    simp only [Finset.empty_union, List.mem_toFinset, List.mem_filter,
      Finset.mem_filter, mem_spec_neighbors, gn_keepb_iff]
    tauto
  · have hset : (spec_neighbors st cell).filter (fun p => p ∈ st.mines) =
        ((nbr_list cell).filter (gn_mineb st)).toFinset := by
      ext p
      simp only [Finset.mem_filter, mem_spec_neighbors, List.mem_toFinset,
        List.mem_filter, gn_mineb_iff]
      tauto
    rw [hset, List.toFinset_card_of_nodup (List.Nodup.filter _ (nbr_list_nodup cell))]

lemma pickCell_mem {s : Finset Cell} {c : Cell} (h : pickCell s = some c) : c ∈ s := by
  unfold pickCell at h
  split_ifs at h with h1 h2
  have hc := Option.some_injective _ h
  have h3 := Finset.min'_mem _ h2
  obtain ⟨b, hb, hb2⟩ := Finset.mem_image.mp h3
  obtain ⟨hbs, hbr⟩ := Finset.mem_filter.mp hb
  have hbc : b = c := by
    rcases b with ⟨b1, b2⟩
    rw [← hc]
    simp only at hbr hb2
    rw [hbr, hb2]
  rwa [← hbc]

lemma pickCell_isSome {s : Finset Cell} (h : s.Nonempty) : (pickCell s).isSome = true := by
  have hr := Finset.min'_mem (s.image Prod.fst) (h.image Prod.fst)
  obtain ⟨a, ha, har⟩ := Finset.mem_image.mp hr
  have ht : ((s.filter fun c => c.1 = (s.image Prod.fst).min' (h.image Prod.fst)).image
      Prod.snd).Nonempty := by
    refine Finset.Nonempty.image ?_ Prod.snd
    exact ⟨a, Finset.mem_filter.mpr ⟨ha, har⟩⟩
  unfold pickCell
  rw [dif_pos h, dif_pos ht]
  rfl

/-- Claim C9: `make_safe_move` does not mutate the state; when
`safes − moves_made` is non-empty it returns an element of that set
(a cell in `safes` and not in `moves_made`), and when that set is empty
it returns `None`. -/
theorem c9_make_safe_move (st : AIState) :
    (make_safe_move st).2 = st ∧
    (∀ c : Cell, (make_safe_move st).1 = some c → c ∈ st.safes ∧ c ∉ st.moves_made) ∧
    (st.safes \ st.moves_made = ∅ → (make_safe_move st).1 = none) ∧
    ((st.safes \ st.moves_made).Nonempty → ((make_safe_move st).1).isSome = true) := by
  refine ⟨rfl, ?_, ?_, ?_⟩
  · intro c hc
    unfold make_safe_move at hc
    simp only at hc
    split_ifs at hc with hpos
    have := pickCell_mem hc
    exact ⟨(Finset.mem_sdiff.mp this).1, (Finset.mem_sdiff.mp this).2⟩
  · intro hempty
    unfold make_safe_move
    simp [hempty]
  · intro hne
    unfold make_safe_move
    simp only
    rw [if_pos (Finset.card_pos.mpr hne)]
    exact pickCell_isSome hne

/-- Claim C9 (witness): with `safes = {(0,0), (0,1)}` and
`moves_made = {(0,0)}`, the proposed move is a cell of
`safes − moves_made`; with `safes = moves_made = {(0,0)}` the result is
`None`. -/
theorem c9_make_safe_move_witness :
    (((0 : Int), (1 : Int)) ∈
        (⟨2, 2, {((0 : Int), (0 : Int))}, ∅,
          {((0 : Int), (0 : Int)), ((0 : Int), (1 : Int))}, []⟩ : AIState).safes ∧
      ((0 : Int), (1 : Int)) ∉
        (⟨2, 2, {((0 : Int), (0 : Int))}, ∅,
          {((0 : Int), (0 : Int)), ((0 : Int), (1 : Int))}, []⟩ : AIState).moves_made) ∧
    (make_safe_move (⟨2, 2, {((0 : Int), (0 : Int))}, ∅,
        {((0 : Int), (0 : Int))}, []⟩ : AIState)).1 = none := by
  constructor
  · exact (c9_make_safe_move
      (⟨2, 2, {((0 : Int), (0 : Int))}, ∅,
        {((0 : Int), (0 : Int)), ((0 : Int), (1 : Int))}, []⟩ : AIState)).2.1
      (((0 : Int), (1 : Int))) (by decide)
  · exact (c9_make_safe_move
      (⟨2, 2, {((0 : Int), (0 : Int))}, ∅,
        {((0 : Int), (0 : Int))}, []⟩ : AIState)).2.2.1 (by decide)

lemma empty_sent_mark_safe (c : Cell) :
    Sentence.mark_safe ⟨∅, 0⟩ c = ⟨∅, 0⟩ := by
  simp [Sentence.mark_safe]

lemma empty_sent_mark_mine (c : Cell) :
    Sentence.mark_mine ⟨∅, 0⟩ c = ⟨∅, 0⟩ := by
  simp [Sentence.mark_mine]

lemma empty_mem_markSafeAll {st : AIState} (s : Finset Cell)
    (h : (⟨∅, 0⟩ : Sentence) ∈ st.knowledge) :
    (⟨∅, 0⟩ : Sentence) ∈ (markSafeAll st s).knowledge := by
  unfold markSafeAll
  simp only [List.mem_map]
  exact ⟨⟨∅, 0⟩, h, by simp⟩

lemma empty_mem_markMineAll {st : AIState} (s : Finset Cell)
    (h : (⟨∅, 0⟩ : Sentence) ∈ st.knowledge) :
    (⟨∅, 0⟩ : Sentence) ∈ (markMineAll st s).knowledge := by
  unfold markMineAll
  simp only [List.mem_map]
  exact ⟨⟨∅, 0⟩, h, by simp⟩

lemma empty_mem_pairwise_step (newcells : Finset Cell) (cnt : Int) (nsIdx : Nat)
    (acc : AIState × List Sentence) (i : Nat)
    (h : (⟨∅, 0⟩ : Sentence) ∈ acc.1.knowledge) :
    (⟨∅, 0⟩ : Sentence) ∈ (pairwise_step newcells cnt nsIdx acc i).1.knowledge := by
  simp only [pairwise_step]
  split_ifs <;>
    (repeat
      first
        | exact h
        | apply empty_mem_markMineAll
        | apply empty_mem_markSafeAll)

lemma empty_mem_pairwise_foldl (newcells : Finset Cell) (cnt : Int) (nsIdx : Nat)
    (l : List Nat) :
    ∀ acc : AIState × List Sentence, (⟨∅, 0⟩ : Sentence) ∈ acc.1.knowledge →
      (⟨∅, 0⟩ : Sentence) ∈
        (l.foldl (pairwise_step newcells cnt nsIdx) acc).1.knowledge := by
  induction l with
  | nil => intro acc h; exact h
  | cons i l ih =>
      intro acc h
      simp only [List.foldl_cons]
      exact ih _ (empty_mem_pairwise_step newcells cnt nsIdx acc i h)

lemma empty_mem_cleanup_step (st : AIState) (i : Nat)
    (h : (⟨∅, 0⟩ : Sentence) ∈ st.knowledge) :
    (⟨∅, 0⟩ : Sentence) ∈ (cleanup_step st i).knowledge := by
  simp only [cleanup_step]
  split_ifs <;>
    (repeat
      first
        | exact h
        | apply empty_mem_markMineAll
        | apply empty_mem_markSafeAll)

lemma empty_mem_cleanup_foldl (l : List Nat) :
    ∀ st : AIState, (⟨∅, 0⟩ : Sentence) ∈ st.knowledge →
      (⟨∅, 0⟩ : Sentence) ∈ (l.foldl cleanup_step st).knowledge := by
  induction l with
  | nil => intro st h; exact h
  | cons i l ih =>
      intro st h
      simp only [List.foldl_cons]
      exact ih _ (empty_mem_cleanup_step st i h)

lemma empty_mem_final_cleanup (st : AIState)
    (h : (⟨∅, 0⟩ : Sentence) ∈ st.knowledge) :
    (⟨∅, 0⟩ : Sentence) ∈ (final_cleanup st).knowledge :=
  empty_mem_cleanup_foldl _ st h

lemma empty_mem_ak_staged (st : AIState) (cell : Cell) (count : Int)
    (h : (⟨∅, 0⟩ : Sentence) ∈ st.knowledge) :
    (⟨∅, 0⟩ : Sentence) ∈ (ak_staged st cell count).knowledge := by
  have h2 : (⟨∅, 0⟩ : Sentence) ∈ (ak_after_marks st cell).knowledge := by
    simp only [ak_after_marks, AIState.mark_safe, List.mem_map]
    exact ⟨⟨∅, 0⟩, h, empty_sent_mark_safe cell⟩
  simp only [ak_staged]
  split_ifs <;>
    (repeat
      first
        | exact List.mem_append_left _ h2
        | apply empty_mem_markMineAll
        | apply empty_mem_markSafeAll)

lemma empty_newsent_ak_staged (st : AIState) (cell : Cell) (count : Int)
    (hgn : get_neighbors (ak_after_marks st cell) cell count = (∅, 0)) :
    (⟨∅, 0⟩ : Sentence) ∈ (ak_staged st cell count).knowledge := by
  simp [ak_staged, hgn, markMineAll, markSafeAll]

lemma empty_mem_ak_before_cleanup_of_staged (st : AIState) (cell : Cell) (count : Int)
    (h : (⟨∅, 0⟩ : Sentence) ∈ (ak_staged st cell count).knowledge) :
    (⟨∅, 0⟩ : Sentence) ∈ (add_knowledge st cell count).knowledge := by
  unfold add_knowledge ak_before_cleanup
  apply empty_mem_final_cleanup
  dsimp only
  apply mem_unique_list
  apply List.mem_append_left
  exact empty_mem_pairwise_foldl _ _ _ _ _ h

/-- Claim C10: `add_knowledge` appends the constraint built from the
undetermined-neighbor set even when that set is empty; an empty
constraint `{}=0` is present when the call returns and, once present,
persists across every subsequent `add_knowledge` call (its
`known_mines()` and `known_safes()` return the empty set, which the
resolution sweep treats as yielding nothing, and nothing is ever
removed). -/
theorem c10_empty_constraint_persists (st : AIState) (cell : Cell) (count : Int) :
    (get_neighbors (ak_after_marks st cell) cell count = (∅, 0) →
      (⟨∅, 0⟩ : Sentence) ∈ (add_knowledge st cell count).knowledge) ∧
    ((⟨∅, 0⟩ : Sentence) ∈ st.knowledge →
      (⟨∅, 0⟩ : Sentence) ∈ (add_knowledge st cell count).knowledge) := by
  constructor
  · intro hgn
    exact empty_mem_ak_before_cleanup_of_staged st cell count
      (empty_newsent_ak_staged st cell count hgn)
  · intro h
    exact empty_mem_ak_before_cleanup_of_staged st cell count
      (empty_mem_ak_staged st cell count h)

/-- Claim C10 (witness): on a 1 by 1 board the cell (0,0) has no
neighbors, so `add_knowledge((0,0), 0)` appends `{}=0`, which is still
present after the call and after a further call. -/
theorem c10_empty_constraint_persists_witness :
    (⟨∅, 0⟩ : Sentence) ∈
      (add_knowledge (initialAI 1 1) ((0 : Int), (0 : Int)) 0).knowledge ∧
    (⟨∅, 0⟩ : Sentence) ∈
      (add_knowledge (add_knowledge (initialAI 1 1) ((0 : Int), (0 : Int)) 0)
        ((0 : Int), (0 : Int)) 0).knowledge := by
  constructor
  · exact (c10_empty_constraint_persists (initialAI 1 1) ((0 : Int), (0 : Int)) 0).1
      (by decide)
  · exact (c10_empty_constraint_persists
      (add_knowledge (initialAI 1 1) ((0 : Int), (0 : Int)) 0)
      ((0 : Int), (0 : Int)) 0).2 (by decide)

/-- Final cleanup on a state holding exactly `[{C,D}=2, {}=0]`: the first
sentence resolves (both cells marked mines), the second yields nothing;
`safes` is untouched and `mines` gains `{C,D}`. -/
lemma cleanup_two_resolved (W : AIState) (C D : Cell) (hCD : C ≠ D)
    (hk : W.knowledge = [⟨{C, D}, 2⟩, ⟨∅, 0⟩]) :
    (final_cleanup W).safes = W.safes ∧ (final_cleanup W).mines = W.mines ∪ {C, D} := by
  have hc2 : ({C, D} : Finset Cell).card = 2 := by
    rw [Finset.card_insert_of_not_mem (by simp [hCD]), Finset.card_singleton]
  have hkm : opt_truthy (Sentence.known_mines ⟨{C, D}, 2⟩) = true := by
    simp [Sentence.known_mines, hc2, opt_truthy]
  have hmm1 : (markMineAll W {C, D}).knowledge = [⟨∅, 0⟩, ⟨∅, 0⟩] := by
    simp only [markMineAll, hk, List.map_cons, List.map_nil]
    simp [hc2]
  have hstep0 : cleanup_step W 0 = markMineAll W {C, D} := by
    simp only [cleanup_step, hk, List.getD_cons_zero]
    rw [if_pos hkm, hmm1]
    simp only [List.getD_cons_zero]
    rw [if_neg (by rw [opt_truthy_empty_zero_safes]; simp)]
  have hstep1 : cleanup_step (markMineAll W {C, D}) 1 = markMineAll W {C, D} := by
    simp [cleanup_step, hmm1, opt_truthy_empty_zero_mines, opt_truthy_empty_zero_safes]
  have hfc : final_cleanup W = markMineAll W {C, D} := by
    unfold final_cleanup
    rw [hk]
    simp only [List.length_cons, List.length_nil]
    have hr : List.range 2 = [0, 1] := rfl
    rw [hr]
    simp only [List.foldl_cons, List.foldl_nil]
    rw [hstep0, hstep1]
  rw [hfc]
  exact ⟨rfl, rfl⟩

/-- Claim C3 (Scenario D): with the knowledge base holding exactly the
constraint `{A,B,C,D}=2` and an `add_knowledge` call whose
`get_neighbors` yields the new constraint `{A,B}` with adjusted count 0
(the four cells undetermined beforehand and distinct from the probed
cell), the call marks `A` and `B` safe and `C` and `D` mines. -/
theorem c3_scenario_d (st : AIState) (cell A B C D : Cell) (count : Int)
    (hAB : A ≠ B) (hAC : A ≠ C) (hAD : A ≠ D) (hBC : B ≠ C) (hBD : B ≠ D)
    (hCD : C ≠ D)
    (hcellA : cell ≠ A) (hcellB : cell ≠ B) (hcellC : cell ≠ C) (hcellD : cell ≠ D)
    (hkn : st.knowledge = [⟨{A, B, C, D}, 2⟩])
    (hsafes : A ∉ st.safes ∧ B ∉ st.safes ∧ C ∉ st.safes ∧ D ∉ st.safes)
    (hmines : A ∉ st.mines ∧ B ∉ st.mines ∧ C ∉ st.mines ∧ D ∉ st.mines)
    (hgn : get_neighbors (ak_after_marks st cell) cell count = ({A, B}, 0)) :
    A ∈ (add_knowledge st cell count).safes ∧
    B ∈ (add_knowledge st cell count).safes ∧
    C ∈ (add_knowledge st cell count).mines ∧
    D ∈ (add_knowledge st cell count).mines := by
  -- the cell marked safe in step 2 is none of A, B, C, D, so the held
  -- sentence is unchanged by that propagation
  have hcm : cell ∉ ({A, B, C, D} : Finset Cell) := by
    simp only [Finset.mem_insert, Finset.mem_singleton]
    push_neg
    exact ⟨hcellA, hcellB, hcellC, hcellD⟩
  have h2k : (ak_after_marks st cell).knowledge = [⟨{A, B, C, D}, 2⟩] := by
    simp only [ak_after_marks, AIState.mark_safe, hkn, List.map_cons, List.map_nil,
      Sentence.mark_safe]
    rw [Finset.erase_eq_of_not_mem hcm]
  have hdiff1 : ({A, B, C, D} : Finset Cell) \ {A, B} = {C, D} := by
    ext x
    simp only [Finset.mem_sdiff, Finset.mem_insert, Finset.mem_singleton]
    constructor
    · rintro ⟨h1 | h1 | h1 | h1, h2⟩ <;> tauto
    · rintro (rfl | rfl)
      · refine ⟨by tauto, ?_⟩
        rintro (h | h)
        exacts [hAC h.symm, hBC h.symm]
      · refine ⟨by tauto, ?_⟩
        rintro (h | h)
        exacts [hAD h.symm, hBD h.symm]
  have hcardAB : ¬ ((({A, B} : Finset Cell).card : Int) = 0) := by
    rw [Finset.card_insert_of_not_mem (by simp [hAB]), Finset.card_singleton]
    norm_num
  have hstaged : ak_staged st cell count =
      markSafeAll { ak_after_marks st cell with
        knowledge := (ak_after_marks st cell).knowledge ++ [⟨{A, B}, 0⟩] } {A, B} := by
    simp only [ak_staged, hgn]
    rw [if_neg hcardAB]
    simp
  have hstagedk : (ak_staged st cell count).knowledge = [⟨{C, D}, 2⟩, ⟨∅, 0⟩] := by
    rw [hstaged]
    simp only [markSafeAll, h2k, List.append_eq, List.cons_append, List.nil_append,
      List.map_cons, List.map_nil]
    rw [hdiff1, Finset.sdiff_self]
  have hstageds : (ak_staged st cell count).safes =
      insert cell st.safes ∪ {A, B} := by
    rw [hstaged]
    rfl
  have hstagedm : (ak_staged st cell count).mines = st.mines := by
    rw [hstaged]
    rfl
  have hne0 : ((⟨{C, D}, 2⟩ : Sentence) = ⟨∅, 0⟩) = False := by
    simp [Sentence.mk.injEq]
  have hnsub1 : ¬ ({C, D} : Finset Cell) ⊆ {A, B} := by
    intro hsub
    have := hsub (Finset.mem_insert_self C {D})
    simp only [Finset.mem_insert, Finset.mem_singleton] at this
    rcases this with h | h
    exacts [hAC h.symm, hBC h.symm]
  have hnsub2 : ¬ ({A, B} : Finset Cell) ⊆ {C, D} := by
    intro hsub
    have := hsub (Finset.mem_insert_self A {B})
    simp only [Finset.mem_insert, Finset.mem_singleton] at this
    rcases this with h | h
    exacts [hAC h, hAD h]
  have hstep0 : pairwise_step {A, B} 0 1 (ak_staged st cell count, []) 0 =
      (ak_staged st cell count, []) := by
    simp only [pairwise_step, hstagedk, List.getD_cons_zero, List.getD_cons_succ]
    rw [if_neg (by rw [hne0]; exact not_false), if_neg hnsub1]
    simp only [hstagedk, List.getD_cons_zero]
    rw [if_neg hnsub2]
  have hstep1 : pairwise_step {A, B} 0 1 (ak_staged st cell count, []) 1 =
      (ak_staged st cell count, []) := by
    simp only [pairwise_step, hstagedk, List.getD_cons_zero, List.getD_cons_succ]
    simp
  have hpair : pairwise_phase {A, B} 0 (ak_staged st cell count) =
      (ak_staged st cell count, []) := by
    unfold pairwise_phase
    simp only [hstagedk, List.length_cons, List.length_nil]
    have hr : List.range 2 = [0, 1] := rfl
    rw [hr]
    simp only [List.foldl_cons, List.foldl_nil]
    rw [hstep0, hstep1]
  have hun : unique_list [(⟨{C, D}, 2⟩ : Sentence), ⟨∅, 0⟩] =
      [⟨{C, D}, 2⟩, ⟨∅, 0⟩] := by
    simp [unique_list, Sentence.mk.injEq]
  have hak : add_knowledge st cell count =
      final_cleanup { ak_staged st cell count with
        knowledge := [⟨{C, D}, 2⟩, ⟨∅, 0⟩] } := by
    simp only [add_knowledge, ak_before_cleanup, hgn]
    rw [hpair]
    simp only [List.append_nil, hstagedk, hun]
  obtain ⟨hs, hm⟩ := cleanup_two_resolved
    { ak_staged st cell count with knowledge := [⟨{C, D}, 2⟩, ⟨∅, 0⟩] } C D hCD rfl
  rw [hak, hs, hm]
  refine ⟨?_, ?_, ?_, ?_⟩
  · show A ∈ ({ ak_staged st cell count with
      knowledge := [(⟨{C, D}, 2⟩ : Sentence), ⟨∅, 0⟩] } : AIState).safes
    rw [show ({ ak_staged st cell count with
      knowledge := [(⟨{C, D}, 2⟩ : Sentence), ⟨∅, 0⟩] } : AIState).safes
        = (ak_staged st cell count).safes from rfl, hstageds]
    simp
  · show B ∈ ({ ak_staged st cell count with
      knowledge := [(⟨{C, D}, 2⟩ : Sentence), ⟨∅, 0⟩] } : AIState).safes
    rw [show ({ ak_staged st cell count with
      knowledge := [(⟨{C, D}, 2⟩ : Sentence), ⟨∅, 0⟩] } : AIState).safes
        = (ak_staged st cell count).safes from rfl, hstageds]
    simp
  · show C ∈ ({ ak_staged st cell count with
      knowledge := [(⟨{C, D}, 2⟩ : Sentence), ⟨∅, 0⟩] } : AIState).mines ∪ {C, D}
    simp
  · show D ∈ ({ ak_staged st cell count with
      knowledge := [(⟨{C, D}, 2⟩ : Sentence), ⟨∅, 0⟩] } : AIState).mines ∪ {C, D}
    simp

/-- Claim C3 (witness): a concrete Scenario D on a 3 by 3 board.  The
knowledge base holds `{(0,2),(1,2),(2,1),(2,2)}=2`; probing (0,1) with
clue 0 yields the new constraint `{(0,2),(1,2)}=0`, and the call marks
(0,2) and (1,2) safe and (2,1) and (2,2) mines. -/
theorem c3_scenario_d_witness :
    ((0 : Int), (2 : Int)) ∈
      (add_knowledge
        (⟨3, 3, {((0 : Int), (0 : Int)), ((1 : Int), (1 : Int))}, ∅,
          {((0 : Int), (0 : Int)), ((0 : Int), (1 : Int)), ((1 : Int), (0 : Int)),
            ((1 : Int), (1 : Int))},
          [⟨{((0 : Int), (2 : Int)), ((1 : Int), (2 : Int)), ((2 : Int), (1 : Int)),
              ((2 : Int), (2 : Int))}, 2⟩]⟩ : AIState)
        ((0 : Int), (1 : Int)) 0).safes ∧
    ((1 : Int), (2 : Int)) ∈
      (add_knowledge
        (⟨3, 3, {((0 : Int), (0 : Int)), ((1 : Int), (1 : Int))}, ∅,
          {((0 : Int), (0 : Int)), ((0 : Int), (1 : Int)), ((1 : Int), (0 : Int)),
            ((1 : Int), (1 : Int))},
          [⟨{((0 : Int), (2 : Int)), ((1 : Int), (2 : Int)), ((2 : Int), (1 : Int)),
              ((2 : Int), (2 : Int))}, 2⟩]⟩ : AIState)
        ((0 : Int), (1 : Int)) 0).safes ∧
    ((2 : Int), (1 : Int)) ∈
      (add_knowledge
        (⟨3, 3, {((0 : Int), (0 : Int)), ((1 : Int), (1 : Int))}, ∅,
          {((0 : Int), (0 : Int)), ((0 : Int), (1 : Int)), ((1 : Int), (0 : Int)),
            ((1 : Int), (1 : Int))},
          [⟨{((0 : Int), (2 : Int)), ((1 : Int), (2 : Int)), ((2 : Int), (1 : Int)),
              ((2 : Int), (2 : Int))}, 2⟩]⟩ : AIState)
        ((0 : Int), (1 : Int)) 0).mines ∧
    ((2 : Int), (2 : Int)) ∈
      (add_knowledge
        (⟨3, 3, {((0 : Int), (0 : Int)), ((1 : Int), (1 : Int))}, ∅,
          {((0 : Int), (0 : Int)), ((0 : Int), (1 : Int)), ((1 : Int), (0 : Int)),
            ((1 : Int), (1 : Int))},
          [⟨{((0 : Int), (2 : Int)), ((1 : Int), (2 : Int)), ((2 : Int), (1 : Int)),
              ((2 : Int), (2 : Int))}, 2⟩]⟩ : AIState)
        ((0 : Int), (1 : Int)) 0).mines :=
  c3_scenario_d
    (⟨3, 3, {((0 : Int), (0 : Int)), ((1 : Int), (1 : Int))}, ∅,
      {((0 : Int), (0 : Int)), ((0 : Int), (1 : Int)), ((1 : Int), (0 : Int)),
        ((1 : Int), (1 : Int))},
      [⟨{((0 : Int), (2 : Int)), ((1 : Int), (2 : Int)), ((2 : Int), (1 : Int)),
          ((2 : Int), (2 : Int))}, 2⟩]⟩ : AIState)
    ((0 : Int), (1 : Int)) ((0 : Int), (2 : Int)) ((1 : Int), (2 : Int))
    ((2 : Int), (1 : Int)) ((2 : Int), (2 : Int)) 0
    (by decide) (by decide) (by decide) (by decide) (by decide) (by decide)
    (by decide) (by decide) (by decide) (by decide)
    (by decide) (by decide) (by decide) (by decide)

example : get_neighbors (initialAI 2 2) ((0 : Int), (0 : Int)) 3 =
    ({((0 : Int), (1 : Int)), ((1 : Int), (0 : Int)), ((1 : Int), (1 : Int))}, 3) := by
  decide

example : (add_knowledge (initialAI 2 2) ((0 : Int), (0 : Int)) 3).mines =
    {((0 : Int), (1 : Int)), ((1 : Int), (0 : Int)), ((1 : Int), (1 : Int))} := by
  decide

example : (add_knowledge (initialAI 2 2) ((0 : Int), (0 : Int)) 3).knowledge =
    [⟨∅, 0⟩] := by
  decide

example : make_safe_move (initialAI 2 2) = (none, initialAI 2 2) := by
  decide
